import Mathlib

/-!
# QuizMaster Live — verification of the game session engine

A shallow embedding of the server in `server.js` (the only source file with
game logic).  Socket identities are modelled as natural numbers, timestamps
as integer milliseconds (`Date.now()`), and JavaScript numbers that flow in
from untrusted payloads as `Option ℚ` (`none` models `NaN`, i.e. the result
of `Number(x)` on a non-numeric value; every finite numeric payload that
matters to the claims is a rational).  In-memory `Map`s (insertion ordered
in JavaScript) are modelled as association lists with `Map.set` replace-or-
append semantics.  Outbound `io.emit`/`socket.emit` calls are modelled as a
list of `Ev` values returned next to the updated state.
-/

set_option maxHeartbeats 1000000
set_option maxRecDepth 2000

namespace Quiz

/-- The four session states (`game.state` in the source). -/
inductive GState where
  | lobby
  | question
  | reveal
  | ended
deriving DecidableEq, Repr

/-- A sanitized question as stored on the game
(`{ prompt, options, correctIndex, timeLimitSec }`).  `correctIndex` and
`timeLimitSec` are kept as rationals because the sanitizer in
`host:startGame` clamps but never truncates to an integer. -/
structure Question where
  prompt : String
  options : List String
  correctIndex : ℚ
  timeLimitSec : ℚ
deriving DecidableEq, Repr

/-- A roster entry (`{ id, name, score, answered, answerIndex, answerTime }`).
`answerIndex`/`answerTime` are `none` when the JavaScript fields are `null`. -/
structure Player where
  id : Nat
  name : String
  score : ℤ
  answered : Bool
  answerIndex : Option ℚ
  answerTime : Option ℤ
deriving DecidableEq, Repr

/-- One game (session) record, as created by `host:createGame`. -/
structure Game where
  code : String
  hostId : Nat
  players : List Player
  questions : List Question
  state : GState
  currentIndex : Nat
  questionStart : Option ℤ
  answersSubmitted : Nat
deriving DecidableEq, Repr

/-- Outbound events; payloads are kept only where a claim needs them. -/
inductive Ev where
  | hostErr (msg : String)
  | playerErr (msg : String)
  | gameCreated (code : String)
  | lobbyUpdate
  | hostLobbyUpdate
  | questionShow (index total : Nat)
  | hostQuestionShow (index total : Nat)
  | questionReveal (index : Nat) (correctIndex : ℚ) (counts : List Nat)
  | revealMe (pid : Nat) (correct : Bool)
  | hostQuestionReveal (index : Nat) (correctIndex : ℚ) (counts : List Nat)
  | gameOver
  | hostGameOver
  | playerJoined (code name : String)
  | answerProgress (answered total : Nat)
  | answerLocked (idx : ℚ)
deriving DecidableEq, Repr

/-- JavaScript `Number(x) || d`: `NaN` (our `none`) and `0` both fall back to
the default `d`. -/
def jsOrDefault (x : Option ℚ) (d : ℚ) : ℚ :=
  match x with
  | none => d
  | some v => if v = 0 then d else v

/-- JavaScript `Math.round` for a non-negative rational: half-up rounding. -/
def jsRound (x : ℚ) : ℤ := ⌊x + 1 / 2⌋

/-- Lower-casing as used by `name.toLowerCase()` (ASCII-faithful). -/
def jsLower (s : String) : String := ⟨s.data.map Char.toLower⟩

/-- JavaScript `s.slice(0, n)`: keep the first `n` characters. -/
def jsSlice (s : String) (n : Nat) : String := ⟨s.data.take n⟩

/-- JavaScript `s.trim()`: strip leading and trailing whitespace. -/
def jsTrim (s : String) : String :=
  ⟨((s.data.dropWhile Char.isWhitespace).reverse.dropWhile Char.isWhitespace).reverse⟩

/-- Collapse every maximal run of whitespace to a single space, the effect of
`name.replace(/\s+/g, ' ')`.  The boolean records whether the previous
character was part of a whitespace run. -/
def collapseWSAux : Bool → List Char → List Char
  | _, [] => []
  | inRun, c :: rest =>
    if c.isWhitespace then
      (if inRun then [] else [' ']) ++ collapseWSAux true rest
    else
      c :: collapseWSAux false rest

/-- `sanitizeName` from the source.  The argument is `none` when the caller
sent a non-string (or nothing): `(!name || typeof name !== 'string')`. -/
def sanitizeName (name : Option String) : String :=
  match name with
  | none => "Player"
  | some s =>
    if s = "" then "Player"
    else
      let t := jsSlice (jsTrim s) 24
      if t = "" then "Player" else ⟨collapseWSAux false t.data⟩

/-- Decimal digits of a natural number, most significant first, with explicit
fuel so the definition reduces by `rfl`/`decide`; any fuel above the number
itself suffices (see `natDigitsAux_val`). -/
def natDigitsAux : Nat → Nat → List Char
  | 0, _ => []
  | fuel + 1, n =>
    if n < 10 then [Nat.digitChar n]
    else natDigitsAux fuel (n / 10) ++ [Nat.digitChar (n % 10)]

/-- Decimal rendering of a natural number, the template literal `${i}`. -/
def natRepr (n : Nat) : String := ⟨natDigitsAux (n + 1) n⟩

/-- The numeric value of a most-significant-first decimal digit string;
left inverse of `natDigitsAux`, used to prove `natRepr` injective. -/
def digitsVal (l : List Char) : ℕ := l.foldl (fun a c => 10 * a + (c.toNat - 48)) 0

/-- The `j`-th candidate tried by the `ensureUniqueName` loop: first the
sanitized base itself, then `base #2`, `base #3`, ... -/
def candAux (base : String) : Nat → String
  | 0 => base
  | k + 1 => base ++ " #" ++ natRepr (k + 2)

/-- The `while (names.has(candidate.toLowerCase()))` loop of
`ensureUniqueName`, with fuel.  `j` is the index of the candidate currently
under test. -/
def findFree (names : List String) (base : String) : Nat → Nat → String
  | j, 0 => candAux base j
  | j, fuel + 1 =>
    if jsLower (candAux base j) ∈ names then findFree names base (j + 1) fuel
    else candAux base j

/-- The lower-cased roster names, `new Set(players.map(p => p.name.toLowerCase()))`. -/
def lowerNames (g : Game) : List String := g.players.map fun p => jsLower p.name

/-- `ensureUniqueName(game, desired)` from the source.  The fuel
`|names| + 1` is enough to reach a free candidate (proved below), so this
equals the unbounded JavaScript loop. -/
def ensureUniqueName (g : Game) (desired : Option String) : String :=
  let names := lowerNames g
  let base := sanitizeName desired
  findFree names base 0 (names.length + 1)

/-- One entry of `currentPlayersArray` / the leaderboard
(`{ id, name, score }`, with `rank` attached later by `rankPlayers`). -/
structure LBEntry where
  id : Nat
  name : String
  score : ℤ
  rank : Nat
deriving DecidableEq, Repr

/-- `currentPlayersArray(game)`; the `rank` field does not exist yet on the
JavaScript objects, modelled here as `0`. -/
def currentPlayersArray (g : Game) : List LBEntry :=
  g.players.map fun p => ⟨p.id, p.name, p.score, 0⟩

/-- The comparator `(a, b) => b.score - a.score`: `a` may stay before `b`
iff `b.score ≤ a.score`. -/
def scoreGe (a b : LBEntry) : Prop := b.score ≤ a.score

instance : DecidableRel scoreGe := fun a b => inferInstanceAs (Decidable (b.score ≤ a.score))

instance : IsTotal LBEntry scoreGe := ⟨fun a b => le_total b.score a.score⟩

instance : IsTrans LBEntry scoreGe := ⟨fun _ _ _ h₁ h₂ => le_trans h₂ h₁⟩

/-- `arr.forEach((p, idx) => p.rank = idx + 1)` starting at position `k`. -/
def assignRanksFrom : Nat → List LBEntry → List LBEntry
  | _, [] => []
  | k, p :: rest => { p with rank := k + 1 } :: assignRanksFrom (k + 1) rest

/-- `rankPlayers(game)`: stable sort by score descending (Node's
`Array.prototype.sort` is stable; insertion sort with `scoreGe` realises the
same stable order), then 1-based ranks. -/
def rankPlayers (g : Game) : List LBEntry :=
  assignRanksFrom 0 (List.insertionSort scoreGe (currentPlayersArray g))

/-- `buildLeaderboard(game, topN)`. -/
def buildLeaderboard (g : Game) (topN : Nat) : List LBEntry :=
  (rankPlayers g).take topN

/-- The per-player score delta computed inside `revealAnswer`'s loop:
`500 + Math.round(1000 * rem / timeLimitSec)` for a correct recorded
answer, nothing otherwise.  `start` is `game.questionStart` (JavaScript
`null` coerces to `0` in arithmetic, hence callers pass `getD 0`). -/
def scoreDelta (q : Question) (start : ℤ) (p : Player) : ℤ :=
  if p.answered = true ∧ p.answerIndex = some q.correctIndex then
    let t : ℤ := p.answerTime.getD 0
    let elapsed : ℚ := max 0 ((t - start : ℤ) / 1000)
    let rem : ℚ := max 0 (q.timeLimitSec - elapsed)
    500 + jsRound (1000 * (rem / q.timeLimitSec))
  else 0

/-- The 4-entry tally `counts` built in `revealAnswer`: `counts[k]` counts
the players whose recorded `answerIndex` is exactly the number `k`.  (A
recorded non-integer index increments none of the four entries, matching
`counts[2.5]++` creating a property outside the array's four slots.) -/
def countsArr (g : Game) : List Nat :=
  ([0, 1, 2, 3] : List ℚ).map fun k =>
    (g.players.filter fun p => p.answerIndex = some k).length

/-- `startQuestion(game)` (the `setTimeout` it arms is modelled as the
separate `timerFire` action). -/
def startQuestion (g : Game) (now : ℤ) : Game × List Ev :=
  let g' : Game :=
    { g with
      state := .question
      questionStart := some now
      answersSubmitted := 0
      players := g.players.map fun p =>
        { p with answered := false, answerIndex := none, answerTime := none } }
  (g', [.questionShow (g.currentIndex + 1) g.questions.length,
        .hostQuestionShow (g.currentIndex + 1) g.questions.length])

/-- `revealAnswer(game)`: score every player, tally the answer counts and
broadcast.  When `questions[currentIndex]` is missing the JavaScript code
throws before mutating the game (the property read on `undefined` happens
before `game.state = 'reveal'`), so the game is returned unchanged; this
branch is unreachable from the states in which `revealAnswer` is invoked. -/
def revealAnswer (g : Game) : Game × List Ev :=
  match g.questions[g.currentIndex]? with
  | none => (g, [])
  | some q =>
    let start : ℤ := g.questionStart.getD 0
    let g' : Game :=
      { g with
        state := .reveal
        players := g.players.map fun p => { p with score := p.score + scoreDelta q start p } }
    (g', [.questionReveal (g.currentIndex + 1) q.correctIndex (countsArr g')]
          ++ (g'.players.map fun p => .revealMe p.id (p.answerIndex = some q.correctIndex))
          ++ [.hostQuestionReveal (g.currentIndex + 1) q.correctIndex (countsArr g')])

/-- `endGame(game)`. -/
def endGame (g : Game) : Game × List Ev :=
  ({ g with state := .ended }, [.gameOver, .hostGameOver])

/-- A raw (duck-typed) question object as sent by the host page.
`options = none` models a non-array `options` field; the entries are the
results of `String(o)`.  `correctIndex`/`timeLimitSec` are the results of
`Number(...)`, with `none` for `NaN`. -/
structure RawQuestion where
  prompt : String
  options : Option (List String)
  correctIndex : Option ℚ
  timeLimitSec : Option ℚ
deriving DecidableEq, Repr

/-- The per-entry sanitizer inside `host:startGame`'s `qs.map`. -/
def sanitizeQuestion (q : RawQuestion) : Question :=
  { prompt := jsSlice q.prompt 300
    options :=
      match q.options with
      | some os => (os.take 4).map fun o => jsSlice o 120
      | none => ["A", "B", "C", "D"]
    correctIndex := min 3 (max 0 (jsOrDefault q.correctIndex 0))
    timeLimitSec := min 120 (max 5 (jsOrDefault q.timeLimitSec 20)) }

/-- `host:startGame` after the authorization and ownership guards (which
leave the game untouched).  Note the source assigns `game.questions`
*before* the emptiness early-return, and checks no session state at all.
`raw = none` models a non-array `questions` payload. -/
def hostStartGame (g : Game) (raw : Option (List RawQuestion)) (now : ℤ) : Game × List Ev :=
  let qs := raw.getD []
  let g' : Game := { g with questions := qs.map sanitizeQuestion }
  if g'.questions.length = 0 then (g', [])
  else startQuestion { g' with state := .question, currentIndex := 0 } now

/-- `host:next` after the guards. -/
def hostNext (g : Game) (now : ℤ) : Game × List Ev :=
  if g.state = .question then (g, [])
  else
    let idx := g.currentIndex + 1
    if g.questions.length ≤ idx then endGame g
    else startQuestion { g with currentIndex := idx } now

/-- `host:end` after the guards. -/
def hostEnd (g : Game) : Game × List Ev := endGame g

/-- `Map.set` on the roster: replace the entry with the same key in place,
or append a new one. -/
def mapSet : List Player → Nat → Player → List Player
  | [], _, v => [v]
  | p :: rest, k, v => if p.id = k then v :: rest else p :: mapSet rest k v

/-- `game.players.get(socketId)`. -/
def findPlayer (g : Game) (sock : Nat) : Option Player :=
  g.players.find? fun p => p.id = sock

/-- `player:join` for an existing game (an unknown code only emits an error
and touches nothing). -/
def playerJoin (g : Game) (sock : Nat) (name : Option String) : Game × List Ev :=
  if g.state ≠ .lobby then (g, [.playerErr "Game already started."])
  else
    let finalName := ensureUniqueName g name
    ({ g with players := mapSet g.players sock ⟨sock, finalName, 0, false, none, none⟩ },
     [.playerJoined g.code finalName, .lobbyUpdate, .hostLobbyUpdate])

/-- `Math.max(0, Math.min(3, Number(index) || 0))` from `player:answer`. -/
def coerceIdx (index : Option ℚ) : ℚ := max 0 (min 3 (jsOrDefault index 0))

/-- `player:answer` for an existing game.  As in the source, a missing
current question (unreachable while `state = question`) throws before any
mutation, hence returns the game unchanged. -/
def playerAnswer (g : Game) (sock : Nat) (index : Option ℚ) (now : ℤ) : Game × List Ev :=
  match findPlayer g sock with
  | none => (g, [])
  | some player =>
    if g.state ≠ .question then (g, [])
    else
      match g.questions[g.currentIndex]? with
      | none => (g, [])
      | some q =>
        let elapsed : ℚ := ((now - g.questionStart.getD 0 : ℤ) : ℚ) / 1000
        if q.timeLimitSec < elapsed then (g, [])
        else if player.answered = true then (g, [])
        else
          let idx := coerceIdx index
          ({ g with
              players := g.players.map fun p =>
                if p.id = sock then
                  { p with answered := true, answerIndex := some idx, answerTime := some now }
                else p
              answersSubmitted := g.answersSubmitted + 1 },
           [.answerProgress (g.answersSubmitted + 1) g.players.length, .answerLocked idx])

/-- The body of the `setTimeout` armed by `startQuestion`: `idx` is the
captured `game.currentIndex`. -/
def timerFire (g : Game) (idx : Nat) : Game × List Ev :=
  if g.state = .question ∧ g.currentIndex = idx then revealAnswer g
  else (g, [])

/-- The inbound actions a session can receive (each host action is the
handler body after its authorization/ownership guards, which never modify
the game). -/
inductive Action where
  | start (raw : Option (List RawQuestion)) (now : ℤ)
  | next (now : ℤ)
  | endG
  | join (sock : Nat) (name : Option String)
  | answer (sock : Nat) (index : Option ℚ) (now : ℤ)
  | timer (idx : Nat)
deriving DecidableEq

/-- Whether the action is a `host:startGame`. -/
def Action.isStart : Action → Bool
  | .start _ _ => true
  | _ => false

/-- One handler dispatch on a single session. -/
def step (g : Game) (a : Action) : Game × List Ev :=
  match a with
  | .start raw now => hostStartGame g raw now
  | .next now => hostNext g now
  | .endG => hostEnd g
  | .join sock name => playerJoin g sock name
  | .answer sock index now => playerAnswer g sock index now
  | .timer idx => timerFire g idx

/-- The process-wide `games` map (`Map<PIN, Game>`), insertion ordered. -/
def Registry := List (String × Game)

/-- `games.set(code, game)`: replace in place or append. -/
def setGame : List (String × Game) → String → Game → List (String × Game)
  | [], c, g => [(c, g)]
  | (c', g') :: rest, c, g =>
    if c' = c then (c, g) :: rest else (c', g') :: setGame rest c g

/-- `games.get(code)`. -/
def lookupGame (reg : List (String × Game)) (c : String) : Option Game :=
  (reg.find? fun e => e.1 = c).map fun e => e.2

/-- The fresh game object built by `host:createGame`. -/
def freshGame (hostId : Nat) (code : String) : Game :=
  { code := code
    hostId := hostId
    players := []
    questions := []
    state := .lobby
    currentIndex := 0
    questionStart := none
    answersSubmitted := 0 }

/-- `host:createGame` after the authorization guard: `pin` is the value
returned by `makePIN()`; the game is stored with `games.set(code, game)`
with no collision check of any kind. -/
def createGame (reg : List (String × Game)) (hostId : Nat) (pin : String) :
    List (String × Game) × List Ev :=
  (setGame reg pin (freshGame hostId pin), [.gameCreated pin])

/-! ## Concrete games and traces used by counterexamples and witnesses -/

/-- A well-formed raw question (4 options, answer 0, 20-second limit). -/
def rqEx : RawQuestion := ⟨"Q", some ["a", "b", "c", "d"], some 0, some 20⟩

/-- Trace A: create, start with one question, timer reveal, advance past the
last question (reaching `ended`). -/
def trA1 : Game := (hostStartGame (freshGame 1 "482913") (some [rqEx]) 0).1

def trA2 : Game := (timerFire trA1 0).1

def trA3 : Game := (hostNext trA2 25000).1

/-- Trace B: same with two questions; after the first reveal the host
advances to question 1 and then (illegally per the spec) starts again. -/
def trB1 : Game := (hostStartGame (freshGame 1 "111111") (some [rqEx, rqEx]) 0).1

def trB2 : Game := (timerFire trB1 0).1

def trB3 : Game := (hostNext trB2 25000).1

def trB4 : Game := (step trB3 (.start (some [rqEx, rqEx]) 50000)).1

/-- Modelled after the spec's §4.2 scoring sentence, as the refinement
target for the code's `scoreDelta`: a correct recorded answer earns
`500 + round(1000 * max(0, remainingSeconds) / timeLimitSeconds)` with
`remainingSeconds = timeLimitSeconds - elapsedSecondsSinceQuestionStart`;
an incorrect or absent (`none`) recorded answer earns 0. -/
def specScoreDelta (q : Question) (elapsedSec : ℚ) (recorded : Option ℚ) : ℤ :=
  if recorded = some q.correctIndex then
    500 + jsRound (1000 * max 0 (q.timeLimitSec - elapsedSec) / q.timeLimitSec)
  else 0

/-- The spec's example question: `timeLimitSeconds = 20`, correct option 0. -/
def c4q : Question := ⟨"p", ["a", "b", "c", "d"], 0, 20⟩

/-- A player who answered option 0 at time `t` (in ms, question start 0). -/
def c4p (t : ℤ) : Player := ⟨1, "x", 0, true, some 0, some t⟩

/-- A raw question with a malformed shape: `options` is not an array and
`correctIndex` is 7 (outside `[0,3]`). -/
def rqBad : RawQuestion := ⟨"Bad", none, some 7, none⟩

/-- A lobby game with three players whose scores are 300, 300 and 100, in
roster insertion order A, B, C. -/
def c9g : Game :=
  { freshGame 1 "123456" with
      players := [⟨1, "A", 300, false, none, none⟩, ⟨2, "B", 300, false, none, none⟩,
        ⟨3, "C", 100, false, none, none⟩] }

/-- A game in `question` state with a single yet-unanswered player (id 7)
and `questionStart = 0`. -/
def c10g : Game :=
  { freshGame 1 "654321" with
      players := [⟨7, "P", 0, false, none, none⟩]
      questions := [sanitizeQuestion rqEx]
      state := .question
      questionStart := some 0 }

/-- The same game after player 7 submits the fractional index `5/2` at
`t = 1000 ms`. -/
def c10g' : Game := (playerAnswer c10g 7 (some (5 / 2)) 1000).1

/-- A lobby game whose roster already holds `"Sam"` and the suffixed
`"Sam #2"`. -/
def c8g : Game :=
  { freshGame 1 "222222" with
      players := [⟨1, "Sam", 0, false, none, none⟩, ⟨2, "Sam #2", 0, false, none, none⟩] }

/-- Registry with one active session of host 1 under PIN `"482913"`. -/
def regA : List (String × Game) := (createGame [] 1 "482913").1

/-- The same registry after a second create whose generated PIN collides. -/
def regB : List (String × Game) := (createGame regA 2 "482913").1

/-! ## Field-preservation helper lemmas -/

theorem startQuestion_currentIndex (g : Game) (now : ℤ) :
    (startQuestion g now).1.currentIndex = g.currentIndex := rfl

theorem startQuestion_state (g : Game) (now : ℤ) :
    (startQuestion g now).1.state = GState.question := rfl

theorem endGame_currentIndex (g : Game) : (endGame g).1.currentIndex = g.currentIndex := rfl

theorem endGame_state (g : Game) : (endGame g).1.state = GState.ended := rfl

theorem revealAnswer_currentIndex (g : Game) :
    (revealAnswer g).1.currentIndex = g.currentIndex := by
  unfold revealAnswer
  cases g.questions[g.currentIndex]? <;> rfl

theorem timerFire_currentIndex (g : Game) (idx : Nat) :
    (timerFire g idx).1.currentIndex = g.currentIndex := by
  unfold timerFire
  split
  · exact revealAnswer_currentIndex g
  · rfl

theorem playerJoin_currentIndex (g : Game) (sock : Nat) (name : Option String) :
    (playerJoin g sock name).1.currentIndex = g.currentIndex := by
  unfold playerJoin
  split <;> rfl

theorem playerJoin_state (g : Game) (sock : Nat) (name : Option String) :
    (playerJoin g sock name).1.state = g.state := by
  unfold playerJoin
  split <;> rfl

theorem playerAnswer_currentIndex (g : Game) (sock : Nat) (index : Option ℚ) (now : ℤ) :
    (playerAnswer g sock index now).1.currentIndex = g.currentIndex := by
  unfold playerAnswer
  cases findPlayer g sock with
  | none => rfl
  | some p =>
    dsimp only
    split
    · rfl
    · cases g.questions[g.currentIndex]? with
      | none => rfl
      | some q =>
        dsimp only
        split
        · rfl
        · split <;> rfl

theorem playerAnswer_state (g : Game) (sock : Nat) (index : Option ℚ) (now : ℤ) :
    (playerAnswer g sock index now).1.state = g.state := by
  unfold playerAnswer
  cases findPlayer g sock with
  | none => rfl
  | some p =>
    dsimp only
    split
    · rfl
    · cases g.questions[g.currentIndex]? with
      | none => rfl
      | some q =>
        dsimp only
        split
        · rfl
        · split <;> rfl

/-! ## Theorems -/

/-- Helper: keys that occur after a `setGame` were either present before or
are the inserted key. -/
theorem mem_setGame_keys {c x : String} {g : Game} :
    ∀ reg : List (String × Game),
      x ∈ (setGame reg c g).map Prod.fst → x ∈ reg.map Prod.fst ∨ x = c := by
  intro reg
  induction reg with
  | nil =>
    intro h
    simp only [setGame, List.map_cons, List.map_nil, List.mem_singleton] at h
    exact Or.inr h
  | cons e rest ih =>
    obtain ⟨c', g'⟩ := e
    intro h
    by_cases hc : c' = c
    · rw [setGame, if_pos hc] at h
      simp only [List.map_cons, List.mem_cons] at h ⊢
      tauto
    · rw [setGame, if_neg hc] at h
      simp only [List.map_cons, List.mem_cons] at h ⊢
      rcases h with h | h
      · tauto
      · rcases ih h with h' | h' <;> tauto

/-- Helper: `setGame` preserves key uniqueness. -/
theorem setGame_keys_nodup {c : String} {g : Game} :
    ∀ reg : List (String × Game),
      (reg.map Prod.fst).Nodup → ((setGame reg c g).map Prod.fst).Nodup := by
  intro reg
  induction reg with
  | nil =>
    intro _
    simp [setGame]
  | cons e rest ih =>
    obtain ⟨c', g'⟩ := e
    intro h
    simp only [List.map_cons, List.nodup_cons] at h
    by_cases hc : c' = c
    · subst hc
      rw [setGame, if_pos rfl]
      simp only [List.map_cons, List.nodup_cons]
      exact h
    · rw [setGame, if_neg hc]
      simp only [List.map_cons, List.nodup_cons]
      refine ⟨fun hmem => ?_, ih h.2⟩
      rcases mem_setGame_keys rest hmem with h' | h'
      · exact h.1 h'
      · exact hc h'

/-- Helper: looking up the key just set returns the value just set. -/
theorem lookupGame_setGame (reg : List (String × Game)) (c : String) (g : Game) :
    lookupGame (setGame reg c g) c = some g := by
  induction reg with
  | nil => simp [setGame, lookupGame, List.find?]
  | cons e rest ih =>
    rcases e with ⟨c', g'⟩
    by_cases hc : c' = c
    · simp [setGame, hc, lookupGame, List.find?]
    · simpa [setGame, hc, lookupGame, List.find?] using ih

/-- Claim C1 counterexample: the registry performs no collision check.  With
the session of host 1 active under PIN `"482913"`, a second create whose
generated PIN is the same `"482913"` displaces it: the registry afterwards
maps the code to the *new* host-2 session, and host 1's session is gone. -/
theorem c1_counterexample :
    lookupGame regA "482913" = some (freshGame 1 "482913") ∧
    lookupGame regB "482913" = some (freshGame 2 "482913") ∧
    freshGame 2 "482913" ≠ freshGame 1 "482913" ∧
    regB.length = 1 := by
  refine ⟨rfl, rfl, by decide, rfl⟩

/-- Claim C1, amended: `host:createGame` stores the new session with
`games.set(code, game)` and never re-rolls or rejects on collision, so a
create whose generated PIN equals an active code *overwrites* (displaces)
that session.  What survives is the map half of the claim: at most one
session per code exists at all times (`Map.set` replaces in place, so key
uniqueness is preserved), and the new session is always the one registered
under its code. -/
theorem c1_amended (reg : List (String × Game)) (hostId : Nat) (pin : String)
    (h : (reg.map Prod.fst).Nodup) :
    ((createGame reg hostId pin).1.map Prod.fst).Nodup ∧
    lookupGame (createGame reg hostId pin).1 pin = some (freshGame hostId pin) :=
  ⟨setGame_keys_nodup reg h, lookupGame_setGame reg pin (freshGame hostId pin)⟩

/-- Witness for `c1_amended` at a concrete registry. -/
theorem c1_witness :
    ((createGame regA 2 "482913").1.map Prod.fst).Nodup ∧
    lookupGame (createGame regA 2 "482913").1 "482913" = some (freshGame 2 "482913") :=
  c1_amended regA 2 "482913" (by decide)

/-- Claim C2 counterexample: `ended` is not terminal.  Trace A ends the game
(one question, reveal by timer, advance past the end), after which a second
`host:startGame` with a valid question list moves the session back to
`question` — the state machine is restarted by a start action. -/
theorem c2_counterexample :
    trA3.state = GState.ended ∧
    (step trA3 (.start (some [rqEx]) 30000)).1.state = GState.question := by
  constructor <;> rfl

/-- Claim C2, amended: once `state = ended`, player actions (`join`,
`answer`), stale timers and a repeated `end` leave the state `ended`, and an
advance does too when no further question exists (`currentIndex + 1 ≥
questions.length`, merely re-broadcasting game-over); but `ended` is not
terminal against the host: a `start` with a nonempty question list restarts
the session into `question`, and an advance while `currentIndex + 1 <
questions.length` (possible after an early manual end) re-enters `question`
as well. -/
theorem c2_amended (g : Game) (h : g.state = GState.ended) :
    (∀ sock name, (step g (.join sock name)).1.state = GState.ended) ∧
    (∀ sock index now, (step g (.answer sock index now)).1.state = GState.ended) ∧
    (∀ idx, (step g (.timer idx)).1.state = GState.ended) ∧
    ((step g .endG).1.state = GState.ended) ∧
    (∀ now, g.questions.length ≤ g.currentIndex + 1 →
      (step g (.next now)).1.state = GState.ended) ∧
    (∀ now, g.currentIndex + 1 < g.questions.length →
      (step g (.next now)).1.state = GState.question) ∧
    (∀ raw now, (raw.getD []).length ≠ 0 →
      (step g (.start raw now)).1.state = GState.question) := by
  refine ⟨fun sock name => ?_, fun sock index now => ?_, fun idx => ?_, ?_,
    fun now hlen => ?_, fun now hlen => ?_, fun raw now hne => ?_⟩
  · rw [show (step g (.join sock name)).1.state = g.state from playerJoin_state g sock name, h]
  · rw [show (step g (.answer sock index now)).1.state = g.state from
      playerAnswer_state g sock index now, h]
  · have hq : ¬(g.state = GState.question ∧ g.currentIndex = idx) := by
      rintro ⟨hs, -⟩
      rw [h] at hs
      cases hs
    show (timerFire g idx).1.state = GState.ended
    unfold timerFire
    rw [if_neg hq, h]
  · rfl
  · have hq : g.state ≠ GState.question := by rw [h]; intro hs; cases hs
    show (hostNext g now).1.state = GState.ended
    unfold hostNext
    rw [if_neg hq, if_pos hlen]
    rfl
  · have hq : g.state ≠ GState.question := by rw [h]; intro hs; cases hs
    show (hostNext g now).1.state = GState.question
    unfold hostNext
    rw [if_neg hq, if_neg (Nat.not_le.mpr hlen)]
    rfl
  · show (hostStartGame g raw now).1.state = GState.question
    unfold hostStartGame
    simp only [List.length_map]
    rw [if_neg hne]
    rfl

/-- Witness for `c2_amended` at the concrete ended game of trace A. -/
theorem c2_witness :
    trA3.state = GState.ended ∧ (step trA3 (.join 5 (some "x"))).1.state = GState.ended :=
  ⟨rfl, (c2_amended trA3 rfl).1 5 (some "x")⟩

/-- Claim C3 counterexample: `currentIndex` can decrease.  In trace B the
session is on question index 1 in state `question`; a second
`host:startGame` (the source checks no session state) resets `currentIndex`
to 0. -/
theorem c3_counterexample :
    trB3.currentIndex = 1 ∧ trB4.currentIndex = 0 := by
  constructor <;> rfl

/-- Claim C3, amended: every action other than `start` leaves `currentIndex`
non-decreasing, and a host advance taken in `reveal` with a further question
available increments it by exactly 1; but a repeated `start` action (not
state-guarded in the source) resets `currentIndex` to 0, so monotonicity
over arbitrary action sequences fails. -/
theorem c3_amended (g : Game) :
    (∀ a : Action, a.isStart = false → g.currentIndex ≤ (step g a).1.currentIndex) ∧
    (∀ now, g.state = GState.reveal → g.currentIndex + 1 < g.questions.length →
      (step g (.next now)).1.currentIndex = g.currentIndex + 1) := by
  constructor
  · intro a ha
    cases a with
    | start raw now => simp [Action.isStart] at ha
    | next now =>
      show g.currentIndex ≤ (hostNext g now).1.currentIndex
      unfold hostNext
      split
      · exact le_refl _
      · dsimp only
        split
        · exact le_of_eq (endGame_currentIndex g).symm
        · rw [startQuestion_currentIndex]
          exact Nat.le_succ _
    | endG => exact le_of_eq (endGame_currentIndex g).symm
    | join sock name => exact le_of_eq (playerJoin_currentIndex g sock name).symm
    | answer sock index now => exact le_of_eq (playerAnswer_currentIndex g sock index now).symm
    | timer idx => exact le_of_eq (timerFire_currentIndex g idx).symm
  · intro now hrev hlen
    have hq : g.state ≠ GState.question := by rw [hrev]; intro h; cases h
    show (hostNext g now).1.currentIndex = g.currentIndex + 1
    unfold hostNext
    rw [if_neg hq, if_neg (Nat.not_le.mpr hlen), startQuestion_currentIndex]

/-- Witness for `c3_amended` at the concrete trace-B game. -/
theorem c3_witness :
    trB2.currentIndex ≤ (step trB2 (.next 25000)).1.currentIndex ∧
    (step trB2 (.next 25000)).1.currentIndex = trB2.currentIndex + 1 :=
  ⟨(c3_amended trB2).1 (.next 25000) rfl, (c3_amended trB2).2 25000 rfl (by decide)⟩

/-- Claim C6 (confirmed): the timeout body re-checks that the session is
still in `question` state and still on the captured `currentIndex`; when the
session has left `question` or moved on, the firing is a complete no-op —
the game is unchanged and nothing is emitted (hence no second reveal and no
second application of score deltas). -/
theorem c6_stale_timer (g : Game) (idx : Nat)
    (h : g.state ≠ GState.question ∨ g.currentIndex ≠ idx) :
    timerFire g idx = (g, []) := by
  have h' : ¬(g.state = GState.question ∧ g.currentIndex = idx) := by
    rcases h with h | h <;> exact fun hc => h (by simp [hc.1, hc.2])
  simp [timerFire, h']

/-- Witness for `c6_stale_timer`: the timer armed for question 0 of trace B
fires after the host has advanced to question 1 and does nothing. -/
theorem c6_witness : timerFire trB3 0 = (trB3, []) :=
  c6_stale_timer trB3 0 (Or.inr (by decide))

/-- Helper: `jsRound` of an expression that is an integer. -/
theorem jsRound_eq (x : ℚ) (n : ℤ) (h : x = (n : ℚ)) : jsRound x = n := by
  have h2 : ⌊(1 / 2 : ℚ)⌋ = 0 := by
    rw [Int.floor_eq_zero_iff, Set.mem_Ico]
    constructor <;> norm_num
  rw [jsRound, h, Int.floor_int_add, h2, add_zero]

/-- Claim C4 (confirmed): the score delta applied by `revealAnswer` equals
the spec formula `500 + round(1000 * max(0, timeLimit - elapsed) /
timeLimit)` for a recorded answer equal to `correctIndex`, and `0` for an
absent answer (`specScoreDelta` also yields 0 for a recorded incorrect
answer); `revealAnswer` adds exactly this delta to every player's score;
with `timeLimitSeconds = 20` an answer at `t = 0` yields 1500 and at
`t = 20` (20000 ms) yields 500. -/
theorem c4_scoring :
    (∀ (q : Question) (start t : ℤ) (p : Player), p.answered = true → p.answerTime = some t →
        start ≤ t →
        scoreDelta q start p = specScoreDelta q (((t - start : ℤ) : ℚ) / 1000) p.answerIndex) ∧
    (∀ (q : Question) (start : ℤ) (p : Player), p.answered = false →
        scoreDelta q start p = 0) ∧
    (∀ (g : Game) (q : Question), g.questions[g.currentIndex]? = some q →
        (revealAnswer g).1.players =
          g.players.map fun p =>
            { p with score := p.score + scoreDelta q (g.questionStart.getD 0) p }) ∧
    scoreDelta c4q 0 (c4p 0) = 1500 ∧ scoreDelta c4q 0 (c4p 20000) = 500 := by
  refine ⟨fun q start t p hans ht hts => ?_, fun q start p hans => ?_,
    fun g q hq => ?_, ?_, ?_⟩
  · by_cases hidx : p.answerIndex = some q.correctIndex
    · simp only [scoreDelta, specScoreDelta, ht, Option.getD_some]
      rw [if_pos (show p.answered = true ∧ p.answerIndex = some q.correctIndex from
        ⟨hans, hidx⟩), if_pos hidx]
      have he : (0 : ℚ) ≤ ((t - start : ℤ) : ℚ) / 1000 := by
        apply div_nonneg
        · exact_mod_cast sub_nonneg.mpr hts
        · norm_num
      rw [max_eq_right he, mul_div_assoc]
    · simp only [scoreDelta, specScoreDelta]
      rw [if_neg (show ¬(p.answered = true ∧ p.answerIndex = some q.correctIndex) from
        fun hc => hidx hc.2), if_neg hidx]
  · simp only [scoreDelta]
    rw [if_neg]
    rintro ⟨h1, -⟩
    rw [hans] at h1
    cases h1
  · simp only [revealAnswer, hq]
  · show scoreDelta c4q 0 (c4p 0) = 1500
    unfold scoreDelta
    rw [if_pos (show (c4p 0).answered = true ∧ (c4p 0).answerIndex = some c4q.correctIndex from
      ⟨rfl, rfl⟩)]
    dsimp only
    rw [jsRound_eq _ 1000 (by norm_num [c4q, c4p, max_def, Option.getD_some])]
    norm_num
  · show scoreDelta c4q 0 (c4p 20000) = 500
    unfold scoreDelta
    rw [if_pos (show (c4p 20000).answered = true ∧
        (c4p 20000).answerIndex = some c4q.correctIndex from ⟨rfl, rfl⟩)]
    dsimp only
    rw [jsRound_eq _ 0 (by norm_num [c4q, c4p, max_def, Option.getD_some])]
    norm_num

/-- Witness for `c4_scoring` at a concrete correct answer 500 ms in. -/
theorem c4_witness :
    scoreDelta c4q 0 (c4p 500) =
      specScoreDelta c4q (((500 - 0 : ℤ) : ℚ) / 1000) (c4p 500).answerIndex :=
  c4_scoring.1 c4q 0 500 (c4p 500) rfl rfl (by norm_num)

/-- Helper: updating exactly the roster entries with a given id commutes
with looking that id up, provided the update preserves ids. -/
theorem find?_map_update (l : List Player) (sock : Nat) (f : Player → Player)
    (hid : ∀ p, (f p).id = p.id) :
    (l.map fun p => if p.id = sock then f p else p).find? (fun p => p.id = sock) =
      (l.find? fun p => p.id = sock).map f := by
  induction l with
  | nil => rfl
  | cons p rest ih =>
    by_cases hp : p.id = sock
    · rw [List.map_cons, if_pos hp, List.find?_cons_of_pos _ (by simp [hid, hp]),
        List.find?_cons_of_pos _ (by simp [hp])]
      rfl
    · rw [List.map_cons, if_neg hp, List.find?_cons_of_neg _ (by simp [hp]),
        List.find?_cons_of_neg _ (by simp [hp]), ih]

/-- Helper: `player:answer` with an unknown submitter does nothing. -/
theorem playerAnswer_no_player (g : Game) (sock : Nat) (index : Option ℚ) (now : ℤ)
    (hf : findPlayer g sock = none) : playerAnswer g sock index now = (g, []) := by
  unfold playerAnswer
  rw [hf]

/-- Helper: `player:answer` outside `question` state does nothing. -/
theorem playerAnswer_wrong_state (g : Game) (sock : Nat) (index : Option ℚ) (now : ℤ)
    (p : Player) (hf : findPlayer g sock = some p) (hst : g.state ≠ GState.question) :
    playerAnswer g sock index now = (g, []) := by
  unfold playerAnswer
  rw [hf]
  dsimp only
  rw [if_pos hst]

/-- Helper: the residual behaviour of `player:answer` once the submitter is
known and the session is in `question` state with a current question. -/
theorem playerAnswer_run (g : Game) (sock : Nat) (index : Option ℚ) (now : ℤ)
    (p : Player) (q : Question) (hf : findPlayer g sock = some p)
    (hst : g.state = GState.question) (hq : g.questions[g.currentIndex]? = some q) :
    playerAnswer g sock index now =
      if q.timeLimitSec < ((now - g.questionStart.getD 0 : ℤ) : ℚ) / 1000 then (g, [])
      else if p.answered = true then (g, [])
      else
        ({ g with
            players := g.players.map fun p' =>
              if p'.id = sock then
                { p' with answered := true, answerIndex := some (coerceIdx index),
                          answerTime := some now }
              else p'
            answersSubmitted := g.answersSubmitted + 1 },
         [.answerProgress (g.answersSubmitted + 1) g.players.length,
          .answerLocked (coerceIdx index)]) := by
  unfold playerAnswer
  rw [hf]
  dsimp only
  rw [if_neg (show ¬g.state ≠ GState.question from fun hc => hc hst), hq]

/-- Claim C5 (confirmed): a submission is recorded iff the session is in
`question` state, the submitter is a known player, that player has not yet
answered, and the elapsed time since `questionStartedAt` is at most
`timeLimitSeconds` (equality accepted); otherwise the handler returns the
game unchanged and emits nothing (no error to the submitter).  An accepted
answer sets `answered/answerIndex/answerTime` for that player, and a player
who already answered can never have that answer overwritten. -/
theorem c5_answer_acceptance (g : Game) (sock : Nat) (index : Option ℚ) (now qs : ℤ)
    (q : Question) (hq : g.questions[g.currentIndex]? = some q)
    (hs : g.questionStart = some qs) :
    ((playerAnswer g sock index now = (g, [])) ↔
      ¬(g.state = GState.question ∧
        (∃ p, findPlayer g sock = some p ∧ p.answered = false) ∧
        ((now - qs : ℤ) : ℚ) / 1000 ≤ q.timeLimitSec)) ∧
    ((g.state = GState.question ∧
        (∃ p, findPlayer g sock = some p ∧ p.answered = false) ∧
        ((now - qs : ℤ) : ℚ) / 1000 ≤ q.timeLimitSec) →
      ∀ p, findPlayer g sock = some p →
        findPlayer (playerAnswer g sock index now).1 sock =
          some { p with answered := true, answerIndex := some (coerceIdx index),
                        answerTime := some now }) ∧
    (∀ p, findPlayer g sock = some p → p.answered = true →
      playerAnswer g sock index now = (g, [])) := by
  have hgetd : g.questionStart.getD 0 = qs := by rw [hs]; rfl
  cases hf : findPlayer g sock with
  | none =>
    refine ⟨?_, ?_, ?_⟩
    · rw [playerAnswer_no_player g sock index now hf]
      simp only [true_iff]
      rintro ⟨-, ⟨p, hp, -⟩, -⟩
      cases hp
    · rintro ⟨-, ⟨p, hp, -⟩, -⟩
      cases hp
    · intro p hp
      cases hp
  | some p =>
    by_cases hstate : g.state = GState.question
    · have hrun := playerAnswer_run g sock index now p q hf hstate hq
      rw [hgetd] at hrun
      by_cases hlate : q.timeLimitSec < ((now - qs : ℤ) : ℚ) / 1000
      · rw [if_pos hlate] at hrun
        refine ⟨?_, ?_, fun _ _ _ => hrun⟩
        · rw [hrun]
          simp only [true_iff]
          rintro ⟨-, -, hle⟩
          exact absurd hlate (not_lt.mpr hle)
        · rintro ⟨-, -, hle⟩
          exact absurd hlate (not_lt.mpr hle)
      · rw [if_neg hlate] at hrun
        cases hans : p.answered with
        | true =>
          rw [if_pos hans] at hrun
          refine ⟨?_, ?_, fun _ _ _ => hrun⟩
          · rw [hrun]
            simp only [true_iff]
            rintro ⟨-, ⟨p', hp', hp'ans⟩, -⟩
            cases hp'
            rw [hans] at hp'ans
            cases hp'ans
          · rintro ⟨-, ⟨p', hp', hp'ans⟩, -⟩
            cases hp'
            rw [hans] at hp'ans
            cases hp'ans
        | false =>
          have hans' : ¬p.answered = true := by rw [hans]; exact fun hc => by cases hc
          rw [if_neg hans'] at hrun
          refine ⟨?_, ?_, ?_⟩
          · rw [hrun]
            constructor
            · intro hcontra
              have h2 := congrArg Prod.snd hcontra
              cases h2
            · intro hcontra
              exact absurd ⟨hstate, ⟨p, rfl, hans⟩, not_lt.mp hlate⟩ hcontra
          · intro _ p' hp'
            cases hp'
            rw [hrun]
            show (g.players.map fun p' =>
                if p'.id = sock then
                  { p' with answered := true, answerIndex := some (coerceIdx index),
                            answerTime := some now }
                else p').find? (fun p' => p'.id = sock) = _
            rw [find?_map_update g.players sock
              (fun p'' => { p'' with answered := true, answerIndex := some (coerceIdx index), answerTime := some now })
              (fun _ => rfl)]
            show (findPlayer g sock).map _ = _
            rw [hf]
            rfl
          · intro p' hp' hp'ans
            cases hp'
            rw [hans] at hp'ans
            cases hp'ans
    · have hrun := playerAnswer_wrong_state g sock index now p hf hstate
      refine ⟨?_, ?_, fun _ _ _ => hrun⟩
      · rw [hrun]
        simp only [true_iff]
        rintro ⟨hst, -, -⟩
        exact hstate hst
      · rintro ⟨hst, -, -⟩
        exact absurd hst hstate

/-- Witness for `c5_answer_acceptance`: in the concrete game `c10g` the
known, yet-unanswered player 7 submits index 1 one second in and the answer
is recorded. -/
theorem c5_witness :
    findPlayer (playerAnswer c10g 7 (some 1) 1000).1 7 =
      some { (⟨7, "P", 0, false, none, none⟩ : Player) with
              answered := true, answerIndex := some (coerceIdx (some 1)),
              answerTime := some 1000 } :=
  (c5_answer_acceptance c10g 7 (some 1) 1000 0 (sanitizeQuestion rqEx) rfl rfl).2.1
    ⟨rfl, ⟨⟨7, "P", 0, false, none, none⟩, rfl, rfl⟩,
      by norm_num [sanitizeQuestion, rqEx, jsOrDefault, max_def, min_def]⟩
    ⟨7, "P", 0, false, none, none⟩ rfl

/-- Claim C7 counterexample: a malformed question list is not rejected.
Starting a lobby game with the single malformed entry `rqBad` (non-array
`options`, `correctIndex = 7`) coerces the entry (`options` becomes
`["A","B","C","D"]`, `correctIndex` is clamped to 3, `timeLimitSec`
defaults to 20), stores it, starts the game (state becomes `question`, not
`lobby`) and broadcasts the first question. -/
theorem c7_counterexample :
    (freshGame 1 "999999").state = GState.lobby ∧
    (hostStartGame (freshGame 1 "999999") (some [rqBad]) 0).1.state = GState.question ∧
    (hostStartGame (freshGame 1 "999999") (some [rqBad]) 0).1.questions =
      [⟨"Bad", ["A", "B", "C", "D"], 3, 20⟩] ∧
    (hostStartGame (freshGame 1 "999999") (some [rqBad]) 0).2 ≠ [] := by
  refine ⟨rfl, rfl, ?_, ?_⟩
  · show [sanitizeQuestion rqBad] = [(⟨"Bad", ["A", "B", "C", "D"], 3, 20⟩ : Question)]
    have : sanitizeQuestion rqBad = ⟨"Bad", ["A", "B", "C", "D"], 3, 20⟩ := by
      simp only [sanitizeQuestion, rqBad, Question.mk.injEq]
      norm_num [jsOrDefault, max_def, min_def, jsSlice]
    rw [this]
  · exact fun hc => by cases hc

/-- Claim C7, amended: `host:startGame` never rejects a malformed entry; it
coerces every entry field-by-field (prompt truncated to 300 characters, a
non-array `options` replaced by `["A","B","C","D"]` and an array one
truncated to at most 4 entries of at most 120 characters, `correctIndex`
clamped into `[0,3]` with non-numeric mapped to 0, `timeLimitSec` clamped
into `[5,120]` with non-numeric mapped to 20) and accepts the coerced list
whenever it is nonempty, entering `question` at index 0.  Only an empty (or
non-array) list is refused, with nothing broadcast — and even then the
stored questions are overwritten by the empty list rather than left
unchanged. -/
theorem c7_amended (g : Game) (raw : Option (List RawQuestion)) (now : ℤ) :
    ((raw.getD []).length = 0 →
      hostStartGame g raw now = ({ g with questions := [] }, [])) ∧
    ((raw.getD []).length ≠ 0 →
      (hostStartGame g raw now).1.state = GState.question ∧
      (hostStartGame g raw now).1.currentIndex = 0 ∧
      (hostStartGame g raw now).1.questions = (raw.getD []).map sanitizeQuestion) ∧
    (∀ rq : RawQuestion,
      0 ≤ (sanitizeQuestion rq).correctIndex ∧ (sanitizeQuestion rq).correctIndex ≤ 3 ∧
      5 ≤ (sanitizeQuestion rq).timeLimitSec ∧ (sanitizeQuestion rq).timeLimitSec ≤ 120 ∧
      (sanitizeQuestion rq).options.length ≤ 4) := by
  refine ⟨fun hlen => ?_, fun hlen => ?_, fun rq => ?_⟩
  · have hnil : raw.getD [] = [] := by
      cases h : raw.getD [] with
      | nil => rfl
      | cons a l => rw [h] at hlen; cases hlen
    unfold hostStartGame
    rw [hnil]
    rw [if_pos (show (List.map sanitizeQuestion ([] : List RawQuestion)).length = 0 from rfl)]
    rfl
  · unfold hostStartGame
    simp only [List.length_map]
    rw [if_neg hlen]
    exact ⟨rfl, rfl, rfl⟩
  · refine ⟨le_min (by norm_num) (le_max_left 0 _), min_le_left 3 _,
      le_min (by norm_num) (le_max_left 5 _), min_le_left 120 _, ?_⟩
    unfold sanitizeQuestion
    cases rq.options with
    | none => simp
    | some os =>
      simp only [List.length_map, List.length_take]
      exact min_le_left 4 _

/-- Witness for `c7_amended`: an empty question list leaves a lobby game in
`lobby` with nothing broadcast, but its stored questions overwritten. -/
theorem c7_witness :
    hostStartGame (freshGame 1 "999999") (some []) 0 =
      ({ freshGame 1 "999999" with questions := [] }, []) :=
  (c7_amended (freshGame 1 "999999") (some []) 0).1 rfl

/-- Helper: filtering by an exact score commutes with `orderedInsert` (no
sortedness needed): entries skipped before the insertion point all have a
strictly larger score. -/
theorem filter_orderedInsert (s : ℤ) (a : LBEntry) :
    ∀ l : List LBEntry,
      (List.orderedInsert scoreGe a l).filter (fun p => p.score = s) =
        if a.score = s then a :: l.filter (fun p => p.score = s)
        else l.filter (fun p => p.score = s) := by
  intro l
  induction l with
  | nil =>
    by_cases ha : a.score = s
    · simp [List.orderedInsert, List.filter, ha]
    · simp [List.orderedInsert, List.filter, ha]
  | cons b l ih =>
    by_cases hr : scoreGe a b
    · rw [List.orderedInsert_of_le _ _ hr]
      by_cases ha : a.score = s <;> by_cases hbs : b.score = s <;>
        simp [List.filter_cons, ha, hbs]
    · have hb : a.score < b.score := lt_of_not_le hr
      rw [List.orderedInsert, if_neg hr]
      by_cases ha : a.score = s
      · have hbs : ¬b.score = s := by
          intro hc
          rw [ha, ← hc] at hb
          exact lt_irrefl _ hb
        simp [List.filter_cons, ha, hbs, ih]
      · by_cases hbs : b.score = s <;> simp [List.filter_cons, ha, hbs, ih]

/-- Helper: insertion sort is stable — filtering by an exact score returns
the same (insertion-ordered) sublist before and after sorting. -/
theorem filter_insertionSort (s : ℤ) :
    ∀ l : List LBEntry,
      (List.insertionSort scoreGe l).filter (fun p => p.score = s) =
        l.filter (fun p => p.score = s) := by
  intro l
  induction l with
  | nil => rfl
  | cons a l ih =>
    rw [List.insertionSort, filter_orderedInsert, ih]
    by_cases ha : a.score = s
    · rw [if_pos ha, List.filter_cons_of_pos (by simpa using ha)]
    · rw [if_neg ha, List.filter_cons_of_neg (by simpa using ha)]

/-- Helper: rank assignment keeps every non-rank field. -/
theorem assignRanksFrom_map_base :
    ∀ (k : Nat) (l : List LBEntry),
      (assignRanksFrom k l).map (fun p => (p.id, p.name, p.score)) =
        l.map fun p => (p.id, p.name, p.score) := by
  intro k l
  induction l generalizing k with
  | nil => rfl
  | cons p rest ih => simp [assignRanksFrom, ih]

/-- Helper: rank assignment keeps the score column. -/
theorem assignRanksFrom_map_score :
    ∀ (k : Nat) (l : List LBEntry),
      (assignRanksFrom k l).map (fun p => p.score) = l.map fun p => p.score := by
  intro k l
  induction l generalizing k with
  | nil => rfl
  | cons p rest ih => simp [assignRanksFrom, ih]

/-- Helper: the ranks assigned are the consecutive positions `k+1, k+2, …`. -/
theorem assignRanksFrom_map_rank :
    ∀ (k : Nat) (l : List LBEntry),
      (assignRanksFrom k l).map (fun p => p.rank) = List.range' (k + 1) l.length := by
  intro k l
  induction l generalizing k with
  | nil => rfl
  | cons p rest ih =>
    simp only [assignRanksFrom, List.map_cons, List.length_cons, List.range'_succ, ih]

/-- Helper: rank assignment commutes with filtering by score, up to the
identity projection that drops the rank. -/
theorem assignRanksFrom_filter (s : ℤ) :
    ∀ (k : Nat) (l : List LBEntry),
      ((assignRanksFrom k l).filter (fun p => p.score = s)).map (fun p => (p.id, p.name)) =
        (l.filter (fun p => p.score = s)).map fun p => (p.id, p.name) := by
  intro k l
  induction l generalizing k with
  | nil => rfl
  | cons p rest ih =>
    by_cases hp : p.score = s
    · rw [assignRanksFrom, List.filter_cons_of_pos (by simpa using hp),
        List.filter_cons_of_pos (by simpa using hp), List.map_cons, List.map_cons, ih]
    · rw [assignRanksFrom, List.filter_cons_of_neg (by simpa using hp),
        List.filter_cons_of_neg (by simpa using hp), ih]

/-- Claim C9 (confirmed): `rankPlayers` is the roster projected to
`(id, name, score)` and stably sorted by score descending — it is a
permutation of the roster, its score column is sorted descending, the
entries holding any fixed score appear in exactly their roster insertion
order, and the rank column is exactly `1, 2, …, n` (so tied scores receive
distinct sequential ranks); being a plain function of the roster it is
recomputed fresh at each reveal/end.  On scores `[300, 300, 100]` (roster
order A, B, C) the ranks are `[1, 2, 3]`. -/
theorem c9_ranking :
    (∀ g : Game,
      ((rankPlayers g).map fun p => (p.id, p.name, p.score)).Perm
        (g.players.map fun p => (p.id, p.name, p.score)) ∧
      ((rankPlayers g).map fun p => p.score).Pairwise (fun a b => b ≤ a) ∧
      (∀ s : ℤ,
        (((rankPlayers g).filter fun p => p.score = s).map fun p => (p.id, p.name)) =
          ((g.players.filter fun p => p.score = s).map fun p => (p.id, p.name))) ∧
      ((rankPlayers g).map fun p => p.rank) = List.range' 1 g.players.length) ∧
    ((rankPlayers c9g).map fun p => (p.name, p.rank)) = [("A", 1), ("B", 2), ("C", 3)] := by
  constructor
  · intro g
    refine ⟨?_, ?_, fun s => ?_, ?_⟩
    · rw [rankPlayers, assignRanksFrom_map_base]
      have h1 := (List.perm_insertionSort scoreGe (currentPlayersArray g)).map
        (fun p : LBEntry => (p.id, p.name, p.score))
      refine h1.trans ?_
      rw [currentPlayersArray, List.map_map]
      rfl
    · rw [rankPlayers, assignRanksFrom_map_score]
      have hs := List.sorted_insertionSort scoreGe (currentPlayersArray g)
      exact List.Pairwise.map (fun p : LBEntry => p.score) (fun a b hab => hab) hs
    · rw [rankPlayers, assignRanksFrom_filter, filter_insertionSort, currentPlayersArray,
        List.filter_map, List.map_map]
      rfl
    · rw [rankPlayers, assignRanksFrom_map_rank,
        (List.perm_insertionSort scoreGe (currentPlayersArray g)).length_eq,
        currentPlayersArray, List.length_map]
  · decide

/-- Helper: the concrete run behind `c10g'`: player 7's fractional index
`5/2` passes every check of `player:answer` and is recorded verbatim. -/
theorem c10g'_eq :
    c10g' =
      { c10g with
          players := [⟨7, "P", 0, true, some (coerceIdx (some (5 / 2 : ℚ))), some 1000⟩]
          answersSubmitted := 1 } := by
  have hrun := playerAnswer_run c10g 7 (some (5 / 2)) 1000 ⟨7, "P", 0, false, none, none⟩
    (sanitizeQuestion rqEx) rfl rfl rfl
  rw [if_neg (by norm_num [sanitizeQuestion, rqEx, jsOrDefault, max_def, min_def, c10g,
      freshGame, Option.getD_some]), if_neg (by decide)] at hrun
  show (playerAnswer c10g 7 (some (5 / 2)) 1000).1 = _
  rw [hrun]
  rfl

/-- Helper: an option equal to `some a` differs from `some b` when `a ≠ b`. -/
theorem some_ne_of_ne {x : Option ℚ} {a b : ℚ} (hx : x = some a) (hab : a ≠ b) :
    ¬x = some b := by
  intro hc
  rw [hx, Option.some.injEq] at hc
  exact hab hc

/-- Claim C10 counterexample: a fractional numeric submission is *not*
coerced to one of the four options.  In `c10g'` player 7 submitted index
`5/2`: it was accepted and recorded as the non-integer `5/2` (not as option
0), `5/2` equals no option index `0..3`, and at reveal the 4-entry counts
array tallies nobody even though one player answered — the recorded index
falls outside all four entries. -/
theorem c10_counterexample :
    (findPlayer c10g' 7).map (fun p => p.answerIndex) = some (some (5 / 2 : ℚ)) ∧
    (¬∃ k : Fin 4, (5 / 2 : ℚ) = ((k : ℕ) : ℚ)) ∧
    (countsArr c10g').sum = 0 ∧
    (c10g'.players.filter fun p => p.answered = true).length = 1 := by
  have hco : coerceIdx (some (5 / 2 : ℚ)) = 5 / 2 := by
    norm_num [coerceIdx, jsOrDefault, max_def, min_def]
  refine ⟨?_, ?_, ?_, ?_⟩
  · rw [c10g'_eq]
    simp [findPlayer, List.find?, hco]
  · rintro ⟨k, hk⟩
    fin_cases k <;> norm_num at hk
  · rw [c10g'_eq]
    have h0 : coerceIdx (some (5 / 2 : ℚ)) ≠ 0 := by rw [hco]; norm_num
    have h1 : coerceIdx (some (5 / 2 : ℚ)) ≠ 1 := by rw [hco]; norm_num
    have h2 : coerceIdx (some (5 / 2 : ℚ)) ≠ 2 := by rw [hco]; norm_num
    have h3 : coerceIdx (some (5 / 2 : ℚ)) ≠ 3 := by rw [hco]; norm_num
    simp [countsArr, List.filter_cons, h0, h1, h2, h3]
  · rw [c10g'_eq]
    simp [List.filter_cons]

/-- Claim C10, amended: the coercion `Math.max(0, Math.min(3, Number(index)
|| 0))` clamps every submission into the closed interval `[0, 3]`, maps a
non-numeric (`NaN`) index to 0, and maps every *integer*-valued submission
onto one of the four option indices `{0,1,2,3}`, and the 4-entry counts
array tallies exactly the players whose recorded index is one of those four
values; but a fractional numeric submission (e.g. `5/2`) is recorded as a
non-integer inside `[0,3]` that matches no option and is missing from the
four tallies, so "recorded as a genuine answer to option 0 / only ever
indexed in bounds" does not hold for it. -/
theorem c10_amended :
    (∀ index : Option ℚ, 0 ≤ coerceIdx index ∧ coerceIdx index ≤ 3) ∧
    coerceIdx none = 0 ∧
    (∀ v : ℤ, coerceIdx (some (v : ℚ)) ∈ ([0, 1, 2, 3] : List ℚ)) ∧
    (∀ g : Game, (countsArr g).sum = (g.players.filter fun p =>
        decide (p.answerIndex = some (0 : ℚ) ∨ p.answerIndex = some 1 ∨
          p.answerIndex = some 2 ∨ p.answerIndex = some 3)).length) := by
  refine ⟨fun index => ?_, ?_, fun v => ?_, fun g => ?_⟩
  · unfold coerceIdx
    exact ⟨le_max_left 0 _, max_le (by norm_num) (min_le_left 3 _)⟩
  · norm_num [coerceIdx, jsOrDefault, max_def, min_def]
  · have hj : jsOrDefault (some (v : ℚ)) 0 = (v : ℚ) := by
      show (if (v : ℚ) = 0 then (0 : ℚ) else (v : ℚ)) = (v : ℚ)
      by_cases hv : (v : ℚ) = 0
      · rw [if_pos hv, hv]
      · rw [if_neg hv]
    unfold coerceIdx
    rw [hj]
    rcases le_or_lt (v : ℚ) 0 with h0 | h0
    · have hm : max 0 (min 3 (v : ℚ)) = 0 :=
        max_eq_left (le_trans (min_le_right 3 _) h0)
      rw [hm]
      simp
    · rcases le_or_lt (3 : ℚ) (v : ℚ) with h3 | h3
      · have hm : max 0 (min 3 (v : ℚ)) = 3 := by
          rw [min_eq_left h3, max_eq_right]
          norm_num
        rw [hm]
        simp
      · have hv0 : 0 < v := by exact_mod_cast h0
        have hv3 : v < 3 := by exact_mod_cast h3
        rw [min_eq_right (le_of_lt h3), max_eq_right (le_of_lt h0)]
        interval_cases v
        · simp
        · simp
  · show (([0, 1, 2, 3] : List ℚ).map fun k =>
        (g.players.filter fun p => p.answerIndex = some k).length).sum = _
    induction g.players with
    | nil => rfl
    | cons p rest ih =>
      by_cases h0 : p.answerIndex = some (0 : ℚ)
      · have h1 := some_ne_of_ne h0 (by norm_num : (0 : ℚ) ≠ 1)
        have h2 := some_ne_of_ne h0 (by norm_num : (0 : ℚ) ≠ 2)
        have h3 := some_ne_of_ne h0 (by norm_num : (0 : ℚ) ≠ 3)
        simp [List.filter_cons, eq_true h0, h1, h2, h3] at ih ⊢
        omega
      · by_cases h1 : p.answerIndex = some (1 : ℚ)
        · have h2 := some_ne_of_ne h1 (by norm_num : (1 : ℚ) ≠ 2)
          have h3 := some_ne_of_ne h1 (by norm_num : (1 : ℚ) ≠ 3)
          simp [List.filter_cons, eq_true h1, h0, h2, h3] at ih ⊢
          omega
        · by_cases h2 : p.answerIndex = some (2 : ℚ)
          · have h3 := some_ne_of_ne h2 (by norm_num : (2 : ℚ) ≠ 3)
            simp [List.filter_cons, eq_true h2, h0, h1, h3] at ih ⊢
            omega
          · by_cases h3 : p.answerIndex = some (3 : ℚ)
            · simp [List.filter_cons, eq_true h3, h0, h1, h2] at ih ⊢
              omega
            · simp [List.filter_cons, h0, h1, h2, h3] at ih ⊢
              omega

/-- Helper: string append acts on the underlying character lists. -/
theorem data_append (a b : String) : (a ++ b).data = a.data ++ b.data := by
  cases a
  cases b
  rfl

/-- Helper: `jsLower` distributes over string append. -/
theorem jsLower_append (a b : String) : jsLower (a ++ b) = jsLower a ++ jsLower b := by
  cases a with
  | mk da =>
    cases b with
    | mk db =>
      show String.mk ((da ++ db).map Char.toLower) =
        String.mk (da.map Char.toLower ++ db.map Char.toLower)
      rw [List.map_append]

/-- Helper: the code of a decimal digit character. -/
theorem digitChar_toNat {n : ℕ} (h : n < 10) : (Nat.digitChar n).toNat = 48 + n := by
  interval_cases n <;> decide

/-- Helper: decimal digit characters are fixed by lower-casing. -/
theorem digitChar_toLower {n : ℕ} (h : n < 10) :
    (Nat.digitChar n).toLower = Nat.digitChar n := by
  interval_cases n <;> decide

/-- Helper: `digitsVal` recovers the number from its digit rendering, for
any sufficient fuel. -/
theorem natDigitsAux_val : ∀ f : ℕ, ∀ n < f, digitsVal (natDigitsAux f n) = n := by
  intro f
  induction f with
  | zero =>
    intro n hn
    cases hn
  | succ f ih =>
    intro n hn
    by_cases h10 : n < 10
    · show digitsVal (if n < 10 then [Nat.digitChar n]
        else natDigitsAux f (n / 10) ++ [Nat.digitChar (n % 10)]) = n
      rw [if_pos h10]
      show 10 * 0 + ((Nat.digitChar n).toNat - 48) = n
      rw [digitChar_toNat h10]
      omega
    · show digitsVal (if n < 10 then [Nat.digitChar n]
        else natDigitsAux f (n / 10) ++ [Nat.digitChar (n % 10)]) = n
      rw [if_neg h10]
      show List.foldl (fun a c => 10 * a + (c.toNat - 48)) 0
        (natDigitsAux f (n / 10) ++ [Nat.digitChar (n % 10)]) = n
      rw [List.foldl_append]
      show 10 * digitsVal (natDigitsAux f (n / 10)) + ((Nat.digitChar (n % 10)).toNat - 48) = n
      have hdiv : n / 10 < n := Nat.div_lt_self (by omega) (by norm_num)
      rw [ih (n / 10) (by omega), digitChar_toNat (Nat.mod_lt n (by norm_num))]
      omega

/-- Helper: decimal rendering is injective. -/
theorem natRepr_inj {a b : ℕ} (h : natRepr a = natRepr b) : a = b := by
  have hd : natDigitsAux (a + 1) a = natDigitsAux (b + 1) b := congrArg String.data h
  have hv := natDigitsAux_val (a + 1) a (Nat.lt_succ_self a)
  rw [hd, natDigitsAux_val (b + 1) b (Nat.lt_succ_self b)] at hv
  exact hv.symm

/-- Helper: lower-casing fixes every decimal rendering. -/
theorem natDigitsAux_lower : ∀ f n : ℕ, (natDigitsAux f n).map Char.toLower = natDigitsAux f n := by
  intro f
  induction f with
  | zero =>
    intro n
    rfl
  | succ f ih =>
    intro n
    show (if n < 10 then [Nat.digitChar n]
        else natDigitsAux f (n / 10) ++ [Nat.digitChar (n % 10)]).map Char.toLower =
      (if n < 10 then [Nat.digitChar n]
        else natDigitsAux f (n / 10) ++ [Nat.digitChar (n % 10)])
    by_cases h10 : n < 10
    · rw [if_pos h10]
      show [(Nat.digitChar n).toLower] = [Nat.digitChar n]
      rw [digitChar_toLower h10]
    · rw [if_neg h10, List.map_append, ih (n / 10)]
      show natDigitsAux f (n / 10) ++ [(Nat.digitChar (n % 10)).toLower] = _
      rw [digitChar_toLower (Nat.mod_lt n (by norm_num))]

/-- Helper: `jsLower` fixes a decimal rendering. -/
theorem jsLower_natRepr (n : ℕ) : jsLower (natRepr n) = natRepr n := by
  show String.mk ((natDigitsAux (n + 1) n).map Char.toLower) = String.mk (natDigitsAux (n + 1) n)
  rw [natDigitsAux_lower]

/-- Helper: a decimal rendering is never empty. -/
theorem natDigitsAux_ne_nil (f n : ℕ) (h : n < f) : natDigitsAux f n ≠ [] := by
  cases f with
  | zero => cases h
  | succ f =>
    show (if n < 10 then [Nat.digitChar n]
        else natDigitsAux f (n / 10) ++ [Nat.digitChar (n % 10)]) ≠ []
    by_cases h10 : n < 10
    · rw [if_pos h10]
      exact fun hc => by cases hc
    · rw [if_neg h10]
      simp

/-- Helper: the lower-cased form of a suffixed candidate. -/
theorem jsLower_candAux (base : String) (k : ℕ) :
    jsLower (candAux base (k + 1)) = jsLower base ++ " #" ++ natRepr (k + 2) := by
  have hsp : jsLower " #" = " #" := by decide
  show jsLower (base ++ " #" ++ natRepr (k + 2)) = _
  rw [jsLower_append, jsLower_append, jsLower_natRepr, hsp]

/-- Helper: distinct candidate indices have distinct lower-cased forms
(candidate 0 is shorter than every suffixed candidate; two suffixed
candidates differ in their injective decimal suffix). -/
theorem candLower_inj (base : String) :
    Function.Injective fun k => jsLower (candAux base k) := by
  intro k m h
  dsimp only at h
  cases k with
  | zero =>
    cases m with
    | zero => rfl
    | succ m =>
      rw [show candAux base 0 = base from rfl, jsLower_candAux] at h
      have h2 := congrArg (fun s : String => s.data.length) h
      dsimp only at h2
      rw [data_append, data_append, List.length_append, List.length_append] at h2
      have hne := natDigitsAux_ne_nil (m + 3) (m + 2) (Nat.lt_succ_self _)
      have hpos : 0 < (natRepr (m + 2)).data.length := List.length_pos.mpr hne
      have hsp : (" #" : String).data.length = 2 := by decide
      rw [hsp] at h2
      omega
  | succ k =>
    cases m with
    | zero =>
      rw [show candAux base 0 = base from rfl, jsLower_candAux] at h
      have h2 := congrArg (fun s : String => s.data.length) h
      dsimp only at h2
      rw [data_append, data_append, List.length_append, List.length_append] at h2
      have hne := natDigitsAux_ne_nil (k + 3) (k + 2) (Nat.lt_succ_self _)
      have hpos : 0 < (natRepr (k + 2)).data.length := List.length_pos.mpr hne
      have hsp : (" #" : String).data.length = 2 := by decide
      rw [hsp] at h2
      omega
    | succ m =>
      rw [jsLower_candAux, jsLower_candAux] at h
      have hd := congrArg String.data h
      rw [data_append, data_append, data_append, data_append] at hd
      have hr : (natRepr (k + 2)).data = (natRepr (m + 2)).data :=
        List.append_cancel_left hd
      have hrepr : natRepr (k + 2) = natRepr (m + 2) := by
        show String.mk (natDigitsAux (k + 3) (k + 2)) = String.mk (natDigitsAux (m + 3) (m + 2))
        exact congrArg String.mk hr
      have := natRepr_inj hrepr
      omega

/-- Helper: among the first `|names| + 1` candidates one is free — their
lower-cased forms are pairwise distinct, and `names` is too short to hold
them all. -/
theorem exists_free (names : List String) (base : String) :
    ∃ j, j < names.length + 1 ∧ jsLower (candAux base j) ∉ names := by
  by_contra hc
  push_neg at hc
  have hnd : ((List.range (names.length + 1)).map fun k => jsLower (candAux base k)).Nodup :=
    (List.nodup_range _).map (candLower_inj base)
  have hsub : ((List.range (names.length + 1)).map fun k => jsLower (candAux base k)) ⊆ names := by
    intro x hx
    rcases List.mem_map.mp hx with ⟨k, hk, rfl⟩
    exact hc k (List.mem_range.mp hk)
  have hle := (hnd.subperm hsub).length_le
  rw [List.length_map, List.length_range] at hle
  omega

/-- Helper: given enough fuel to reach a free candidate, the loop of
`ensureUniqueName` returns the *first* free candidate. -/
theorem findFree_spec (names : List String) (base : String) :
    ∀ fuel j : ℕ,
      (∃ k, k < fuel ∧ jsLower (candAux base (j + k)) ∉ names) →
      ∃ k, k < fuel ∧ findFree names base j fuel = candAux base (j + k) ∧
        jsLower (candAux base (j + k)) ∉ names ∧
        ∀ m, m < k → jsLower (candAux base (j + m)) ∈ names := by
  intro fuel
  induction fuel with
  | zero =>
    rintro j ⟨k, hk, -⟩
    cases hk
  | succ fuel ih =>
    intro j hex
    have hstep : findFree names base j (fuel + 1) =
        if jsLower (candAux base j) ∈ names then findFree names base (j + 1) fuel
        else candAux base j := rfl
    by_cases hmem : jsLower (candAux base j) ∈ names
    · have hex' : ∃ k, k < fuel ∧ jsLower (candAux base (j + 1 + k)) ∉ names := by
        rcases hex with ⟨k, hk, hfree⟩
        cases k with
        | zero => exact absurd hmem (by simpa using hfree)
        | succ k' =>
          refine ⟨k', by omega, ?_⟩
          have harith : j + 1 + k' = j + (k' + 1) := by omega
          rw [harith]
          exact hfree
      rcases ih (j + 1) hex' with ⟨k, hk, heq, hfree, hall⟩
      refine ⟨k + 1, by omega, ?_, ?_, ?_⟩
      · rw [hstep, if_pos hmem, heq]
        congr 1
        omega
      · have harith : j + (k + 1) = j + 1 + k := by omega
        rw [harith]
        exact hfree
      · intro m hm
        cases m with
        | zero => simpa using hmem
        | succ m' =>
          have harith : j + (m' + 1) = j + 1 + m' := by omega
          rw [harith]
          exact hall m' (by omega)
    · refine ⟨0, by omega, ?_, by simpa using hmem, ?_⟩
      · rw [hstep, if_neg hmem]
        rfl
      · intro m hm
        cases hm

/-- Helper: the name chosen by `ensureUniqueName` collides with no present
roster name (case-insensitively), and is the first non-colliding candidate
`base, base #2, base #3, …`. -/
theorem ensureUniqueName_free (g : Game) (desired : Option String) :
    jsLower (ensureUniqueName g desired) ∉ lowerNames g ∧
    ∃ j, ensureUniqueName g desired = candAux (sanitizeName desired) j ∧
      ∀ m, m < j → jsLower (candAux (sanitizeName desired) m) ∈ lowerNames g := by
  have hex0 : ∃ k, k < (lowerNames g).length + 1 ∧
      jsLower (candAux (sanitizeName desired) (0 + k)) ∉ lowerNames g := by
    rcases exists_free (lowerNames g) (sanitizeName desired) with ⟨j, hj, hfree⟩
    exact ⟨j, hj, by simpa using hfree⟩
  rcases findFree_spec (lowerNames g) (sanitizeName desired) ((lowerNames g).length + 1) 0 hex0
    with ⟨k, hk, heq, hfree, hall⟩
  have hen : ensureUniqueName g desired = candAux (sanitizeName desired) (0 + k) := heq
  refine ⟨by rw [hen]; exact hfree, 0 + k, hen, fun m hm => ?_⟩
  have hmem := hall m (by omega)
  simpa using hmem

/-- Helper: names reachable after a `Map.set` on the roster were either
present before or belong to the inserted player. -/
theorem mem_mapSet_names {f : Player → String} {x : String} {k : Nat} {v : Player} :
    ∀ l : List Player, x ∈ (mapSet l k v).map f → x ∈ l.map f ∨ x = f v := by
  intro l
  induction l with
  | nil =>
    intro h
    simp only [mapSet, List.map_cons, List.map_nil, List.mem_singleton] at h
    exact Or.inr h
  | cons p rest ih =>
    intro h
    have heq : mapSet (p :: rest) k v =
        if p.id = k then v :: rest else p :: mapSet rest k v := rfl
    rw [heq] at h
    by_cases hp : p.id = k
    · rw [if_pos hp] at h
      simp only [List.map_cons, List.mem_cons] at h ⊢
      tauto
    · rw [if_neg hp] at h
      simp only [List.map_cons, List.mem_cons] at h ⊢
      rcases h with h | h
      · tauto
      · rcases ih h with h' | h' <;> tauto

/-- Helper: a `Map.set` with a player whose (projected) name is fresh keeps
the projected names duplicate-free. -/
theorem mapSet_names_nodup {f : Player → String} {k : Nat} {v : Player} :
    ∀ l : List Player, f v ∉ l.map f → (l.map f).Nodup → ((mapSet l k v).map f).Nodup := by
  intro l
  induction l with
  | nil =>
    intro _ _
    simp [mapSet]
  | cons p rest ih =>
    intro hv h
    simp only [List.map_cons, List.nodup_cons] at h
    simp only [List.map_cons, List.mem_cons] at hv
    push_neg at hv
    have heq : mapSet (p :: rest) k v =
        if p.id = k then v :: rest else p :: mapSet rest k v := rfl
    rw [heq]
    by_cases hp : p.id = k
    · rw [if_pos hp]
      simp only [List.map_cons, List.nodup_cons]
      exact ⟨hv.2, h.2⟩
    · rw [if_neg hp]
      simp only [List.map_cons, List.nodup_cons]
      refine ⟨fun hmem => ?_, ih hv.2 h.2⟩
      rcases mem_mapSet_names rest hmem with h' | h'
      · exact h.1 h'
      · exact hv.1 h'.symm

/-- Helper: a join preserves pairwise case-insensitive distinctness of the
roster names (joins outside `lobby` change nothing; a lobby join inserts a
name that collides with no present name). -/
theorem playerJoin_names_nodup (g : Game) (sock : Nat) (name : Option String)
    (h : (lowerNames g).Nodup) : (lowerNames (playerJoin g sock name).1).Nodup := by
  unfold playerJoin
  by_cases hst : g.state ≠ GState.lobby
  · rw [if_pos hst]
    exact h
  · rw [if_neg hst]
    show ((mapSet g.players sock ⟨sock, ensureUniqueName g name, 0, false, none, none⟩).map
      (fun p => jsLower p.name)).Nodup
    exact mapSet_names_nodup g.players (ensureUniqueName_free g name).1 h

/-- Claim C8 (confirmed): for every roster state (including rosters already
holding suffixed names), the name assigned at join time is the first
candidate among `base, base #2, base #3, …` whose lower-cased form collides
with no present player's lower-cased name; consequently a join preserves
the invariant that no two concurrently-present players share a
case-insensitive display name (removals and the other actions never touch
names).  Concretely, joining `"sam"` against a roster holding `"Sam"` and
`"Sam #2"` yields `"sam #3"`. -/
theorem c8_unique_names :
    (∀ (g : Game) (desired : Option String),
      jsLower (ensureUniqueName g desired) ∉ lowerNames g ∧
      ∃ j, ensureUniqueName g desired = candAux (sanitizeName desired) j ∧
        ∀ m, m < j → jsLower (candAux (sanitizeName desired) m) ∈ lowerNames g) ∧
    (∀ (g : Game) (sock : Nat) (name : Option String),
      (lowerNames g).Nodup → (lowerNames (playerJoin g sock name).1).Nodup) ∧
    ensureUniqueName c8g (some "sam") = "sam #3" :=
  ⟨ensureUniqueName_free, playerJoin_names_nodup, by decide⟩

/-- Witness for `c8_unique_names`: the concrete roster `[Sam, Sam #2]`
satisfies the invariant and keeps it across a join of a third `"sam"`. -/
theorem c8_witness : (lowerNames (playerJoin c8g 3 (some "sam")).1).Nodup :=
  c8_unique_names.2.1 c8g 3 (some "sam") (by decide)

end Quiz
